import Mathlib

/-!
# Sentinel: capture queue and recording state machine

A shallow embedding of `SentinelSystem` (`Sentinel.cpp`, `SentinelSystem.h`).

* Frames (`cv::Mat` camera images) are values of an arbitrary type `α`; smoothed
  grayscale images are values of an arbitrary type `γ`.  An empty `cv::Mat` is `none`.
* `std::queue<cv::Mat> frame_queue` is a `List α`, front of the queue first.
* `std::chrono::steady_clock` time points are integers counting nanoseconds;
  `duration_cast<milliseconds>` is truncating division by `1000000`.
* The OpenCV collaborators are not part of the repository.  The image pipeline is a
  parameter (`Vision`); `cv::VideoWriter` is the small record `VideoWriter`; the results
  of `cap >> temp_frame`, `steady_clock::now()`, `writer.open` and `cv::waitKey` are inputs.
* The two loops run on different threads.  Every access to `frame_queue` happens inside a
  `std::lock_guard` block, so these blocks are atomic steps; a loop is run against a list
  of events, each being one of its own iterations or one step of the other thread.
-/

namespace Sentinel

/-! ## The shared frame queue -/

/-- The locked block of `captureLoop` (lines 28-34): drop the front entry when the queue
holds more than five frames, then append the new frame at the back. -/
def capturePush {α : Type} (frame_queue : List α) (frame : α) : List α :=
  (if frame_queue.length > 5 then frame_queue.tail else frame_queue) ++ [frame]

/-- The locked block of `processLoop` (lines 72-79): when the queue is not empty, take its
front entry and pop it.  Returns the frame found (if any) and the queue afterwards. -/
def fetch {α : Type} (frame_queue : List α) : Option α × List α :=
  match frame_queue with
  | [] => (none, [])
  | frame :: rest => (some frame, rest)

/-- One atomic access to the shared queue: a push by the capture thread or a fetch by the
processing thread. -/
inductive QueueOp (α : Type) where
  | push (frame : α) : QueueOp α
  | pop : QueueOp α

/-- The queue together with the frames the processing thread has fetched so far. -/
structure QueueRun (α : Type) where
  frame_queue : List α
  popped : List α

/-- Effect of one queue access. -/
def QueueRun.step {α : Type} (r : QueueRun α) : QueueOp α → QueueRun α
  | .push frame => ⟨capturePush r.frame_queue frame, r.popped⟩
  | .pop =>
    match fetch r.frame_queue with
    | (some frame, rest) => ⟨rest, r.popped ++ [frame]⟩
    | (none, rest) => ⟨rest, r.popped⟩

/-- Run an interleaving of pushes and fetches from the empty queue. -/
def runOps {α : Type} (ops : List (QueueOp α)) : QueueRun α :=
  ops.foldl QueueRun.step ⟨[], []⟩

/-- The frames pushed by an interleaving, in push order. -/
def pushedFrames {α : Type} : List (QueueOp α) → List α
  | [] => []
  | .push frame :: ops => frame :: pushedFrames ops
  | .pop :: ops => pushedFrames ops

/-- Push a sequence of frames, one locked block per frame, with no fetch in between. -/
def pushAll {α : Type} (frame_queue : List α) (frames : List α) : List α :=
  frames.foldl capturePush frame_queue

/-! ## The video writer -/

/-- The member `cv::VideoWriter writer`, reduced to what the loops can observe of it:
whether it is open, the frames it has encoded so far (oldest first), and how many times
`open` and `write` were called on it. -/
structure VideoWriter (α : Type) where
  opened : Bool
  recorded : List α
  open_calls : Nat
  write_calls : Nat
deriving DecidableEq, Repr

/-- `writer.isOpened()`. -/
def VideoWriter.isOpened {α : Type} (w : VideoWriter α) : Bool :=
  w.opened

/-- `writer.open(filename, fourcc('M','J','P','G'), 30, frame.size(), true)`.  Whether the
file can be created is decided outside the program and given as `ok`; the writer is open
afterwards exactly when the call succeeded. -/
def VideoWriter.openFile {α : Type} (w : VideoWriter α) (ok : Bool) : VideoWriter α :=
  { w with opened := ok, open_calls := w.open_calls + 1 }

/-- `writer.write(frame)`: an open writer encodes the frame; a writer that is not open
ignores the call (OpenCV forwards the frame only when a backend writer exists). -/
def VideoWriter.write {α : Type} (w : VideoWriter α) (frame : α) : VideoWriter α :=
  { w with
    recorded := if w.opened then w.recorded ++ [frame] else w.recorded,
    write_calls := w.write_calls + 1 }

/-- `writer.release()`. -/
def VideoWriter.release {α : Type} (w : VideoWriter α) : VideoWriter α :=
  { w with opened := false }

/-! ## The system object -/

/-- The data members of `SentinelSystem` that the loops read or write (`camera_id` only
selects the camera; `queue_mutex` and `capture_thread` are covered by the atomicity of the
locked blocks). -/
structure SentinelSystem (α : Type) where
  is_running : Bool
  frame_queue : List α
  writer : VideoWriter α
deriving DecidableEq, Repr

/-- `SentinelSystem::stop` (lines 55-60): clear the running flag (the join only waits). -/
def SentinelSystem.stop {α : Type} (s : SentinelSystem α) : SentinelSystem α :=
  { s with is_running := false }

/-! ## captureLoop -/

/-- What can happen while `captureLoop` is in its `while` loop. -/
inductive CaptureEvent (α : Type) where
  /-- One pass of the capture thread: the loop test, then `cap >> temp_frame` yielding
  the given frame (`none` for an empty `cv::Mat`). -/
  | grab (temp_frame : Option α) : CaptureEvent α
  /-- The processing thread runs its fetch block. -/
  | taken : CaptureEvent α
  /-- Another thread stores `false` into `is_running`. -/
  | halt : CaptureEvent α

/-- The `while (is_running)` loop of `captureLoop` (lines 23-38).  `none` means the events
ran out with the thread still inside the loop; `some s` is the state on return. -/
def captureLoopFrom {α : Type} : SentinelSystem α → List (CaptureEvent α) →
    Option (SentinelSystem α)
  | _, [] => none
  | s, .taken :: evs => captureLoopFrom { s with frame_queue := (fetch s.frame_queue).2 } evs
  | s, .halt :: evs => captureLoopFrom { s with is_running := false } evs
  | s, .grab temp_frame :: evs =>
    if s.is_running then
      match temp_frame with
      | none => some s
      | some frame => captureLoopFrom { s with frame_queue := capturePush s.frame_queue frame } evs
    else some s

/-- `SentinelSystem::captureLoop` (lines 13-39).  `cap_opened` is `cap.isOpened()`. -/
def captureLoop {α : Type} (cap_opened : Bool) (s : SentinelSystem α)
    (evs : List (CaptureEvent α)) : Option (SentinelSystem α) :=
  if cap_opened then captureLoopFrom s evs else some { s with is_running := false }

/-! ## processLoop -/

/-- The image pipeline of `processLoop`, supplied by OpenCV. -/
structure Vision (α γ : Type) where
  /-- `cv::cvtColor(frame, gray, COLOR_BGR2GRAY)` followed by
  `cv::GaussianBlur(gray, gray, Size(13, 13), 0)` (lines 87-88). -/
  smooth : α → γ
  /-- `cv::absdiff(last_gray, gray, diff)`, `cv::threshold(diff, thresh, 18, 255, BINARY)`,
  `cv::dilate(thresh, thresh, Mat(), Point(-1,-1), 2)`, `cv::countNonZero(thresh)`
  (lines 96-101). -/
  motion_score : γ → γ → Int

/-- The members of the system together with the locals of `processLoop` that live across
iterations: `last_gray` (`none` while it is the empty `cv::Mat`) and `last_motion_time`. -/
structure ProcessState (α γ : Type) extends SentinelSystem α where
  last_gray : Option γ
  last_motion_time : Int
deriving DecidableEq, Repr

/-- `const int record_buffer_ms = 5000` (line 66). -/
def record_buffer_ms : Int := 5000

/-- Nanoseconds per millisecond. -/
def ns_per_ms : Int := 1000000

/-- `duration_cast<milliseconds>(current_time - last_motion_time).count()` (line 110):
the difference of two nanosecond time points, divided by `1000000` rounding toward zero. -/
def elapsed_ms (current_time last_motion_time : Int) : Int :=
  (current_time - last_motion_time).tdiv ns_per_ms

/-- The recording logic (lines 101-152) for a frame with the given motion score, analysed
at `current_time`; `open_ok` is the result `writer.open` has if it is called.  The overlay
drawn on the frame after `writer.write` (lines 134-144) and the console messages change
neither the writer nor the timer and are left out. -/
def recordingLogic {α γ : Type} (s : ProcessState α γ) (frame : α)
    (motion_score current_time : Int) (open_ok : Bool) : ProcessState α γ :=
  let last_motion_time := if motion_score > 500 then current_time else s.last_motion_time
  if elapsed_ms current_time last_motion_time < record_buffer_ms then
    let writer := if !s.writer.isOpened then s.writer.openFile open_ok else s.writer
    { s with last_motion_time := last_motion_time, writer := writer.write frame }
  else
    { s with
      last_motion_time := last_motion_time,
      writer := if s.writer.isOpened then s.writer.release else s.writer }

/-- The work done on a fetched frame (lines 86-157).  The flag tells whether control went
on to `cv::waitKey` (line 159); it is `false` when the frame only became the baseline and
the iteration ended at the `continue` of line 92. -/
def analyseFrame {α γ : Type} (V : Vision α γ) (s : ProcessState α γ) (frame : α)
    (current_time : Int) (open_ok : Bool) : ProcessState α γ × Bool :=
  let gray := V.smooth frame
  match s.last_gray with
  | none => ({ s with last_gray := some gray }, false)
  | some last_gray =>
    let motion_score := V.motion_score last_gray gray
    ({ recordingLogic s frame motion_score current_time open_ok with last_gray := some gray },
      true)

/-- One pass through the body of the `while` loop of `processLoop` (lines 69-162).
`key` is what `cv::waitKey(30)` returns if it is called (`113` is `'q'`).  The flag tells
whether the body left the loop through `break`, which happens only after `stop()` has
cleared the running flag (lines 159-162).  The sleeps and `cv::imshow` are left out. -/
def processIteration {α γ : Type} (V : Vision α γ) (s : ProcessState α γ)
    (current_time : Int) (open_ok : Bool) (key : Int) : ProcessState α γ × Bool :=
  match fetch s.frame_queue with
  | (none, rest) => ({ s with frame_queue := rest }, false)
  | (some frame, rest) =>
    match analyseFrame V { s with frame_queue := rest } frame current_time open_ok with
    | (s1, false) => (s1, false)
    | (s1, true) =>
      if key = 113 then ({ s1 with is_running := false }, true) else (s1, false)

/-- The cleanup after the loop (lines 165-168). -/
def cleanupOnExit {α γ : Type} (s : ProcessState α γ) : ProcessState α γ :=
  { s with writer := if s.writer.isOpened then s.writer.release else s.writer }

/-- What can happen while `processLoop` is in its `while` loop. -/
inductive ProcessEvent (α : Type) where
  /-- One pass of the processing thread: the loop test and, if it holds, the body, with
  the values `steady_clock::now()`, `writer.open` and `waitKey` produce when called. -/
  | iterate (current_time : Int) (open_ok : Bool) (key : Int) : ProcessEvent α
  /-- The capture thread runs its push block with the given frame. -/
  | captured (frame : α) : ProcessEvent α
  /-- Another thread stores `false` into `is_running`. -/
  | halt : ProcessEvent α

/-- The `while (is_running)` loop of `processLoop` and the cleanup after it (lines 68-168).
`none` means the events ran out with the thread still inside the loop; `some s` is the
state on return. -/
def processLoopFrom {α γ : Type} (V : Vision α γ) : ProcessState α γ →
    List (ProcessEvent α) → Option (ProcessState α γ)
  | _, [] => none
  | s, .captured frame :: evs =>
    processLoopFrom V { s with frame_queue := capturePush s.frame_queue frame } evs
  | s, .halt :: evs => processLoopFrom V { s with is_running := false } evs
  | s, .iterate current_time open_ok key :: evs =>
    if s.is_running then
      match processIteration V s current_time open_ok key with
      | (s1, true) => some (cleanupOnExit s1)
      | (s1, false) => processLoopFrom V s1 evs
    else some (cleanupOnExit s)

/-- `SentinelSystem::processLoop` (lines 63-170).  `start_time` is the value of
`steady_clock::now()` at line 65, which initialises `last_motion_time`. -/
def processLoop {α γ : Type} (V : Vision α γ) (sys : SentinelSystem α) (start_time : Int)
    (evs : List (ProcessEvent α)) : Option (ProcessState α γ) :=
  processLoopFrom V
    { toSentinelSystem := sys, last_gray := none, last_motion_time := start_time } evs

/-! ## Runs of analysed frames -/

/-- The inputs of the analysis of one fetched frame. -/
structure Shot (α : Type) where
  frame : α
  current_time : Int
  open_ok : Bool

/-- The analysis of a sequence of fetched frames, one loop iteration after the other. -/
def analyseAll {α γ : Type} (V : Vision α γ) (s : ProcessState α γ)
    (shots : List (Shot α)) : ProcessState α γ :=
  shots.foldl (fun s x => (analyseFrame V s x.frame x.current_time x.open_ok).1) s

/-- No frame of the run is classified as motion: every frame that is compared with a
previous smoothed frame (`last_gray`) has a motion score of at most 500. -/
def noMotion {α γ : Type} (V : Vision α γ) : Option γ → List (Shot α) → Bool
  | _, [] => true
  | none, x :: xs => noMotion V (some (V.smooth x.frame)) xs
  | some last_gray, x :: xs =>
    decide (V.motion_score last_gray (V.smooth x.frame) ≤ 500) &&
      noMotion V (some (V.smooth x.frame)) xs

/-- The test of line 113 for a frame analysed in state `s`: the frame is compared with a
baseline and, after the possible reset of `last_motion_time`, less than
`record_buffer_ms` have elapsed, so the recording branch (lines 114-145) runs. -/
def eligible {α γ : Type} (V : Vision α γ) (s : ProcessState α γ) (x : Shot α) : Bool :=
  match s.last_gray with
  | none => false
  | some last_gray =>
    decide (elapsed_ms x.current_time
      (if V.motion_score last_gray (V.smooth x.frame) > 500 then x.current_time
        else s.last_motion_time) < record_buffer_ms)

/-- No frame of the run takes the recording branch. -/
def noneEligible {α γ : Type} (V : Vision α γ) : ProcessState α γ → List (Shot α) → Bool
  | _, [] => true
  | s, x :: xs =>
    !eligible V s x &&
      noneEligible V (analyseFrame V s x.frame x.current_time x.open_ok).1 xs

/-- A pipeline on frames that are plain numbers, used in concrete runs: smoothing keeps
the number, and the motion score is the distance between the two numbers. -/
def distanceVision : Vision Int Int where
  smooth := fun frame => frame
  motion_score := fun last_gray gray => (gray - last_gray).natAbs

/-- A closed writer that has not been used. -/
def freshWriter (α : Type) : VideoWriter α :=
  { opened := false, recorded := [], open_calls := 0, write_calls := 0 }

/-- The system right after `start()` has set the running flag (line 44). -/
def startedSystem (α : Type) : SentinelSystem α :=
  { is_running := true, frame_queue := [], writer := freshWriter α }

/-- A processing state with a baseline frame `0`, a closed unused writer, and the last
motion six seconds before time `0`. -/
def idleState : ProcessState Int Int :=
  { toSentinelSystem := startedSystem Int, last_gray := some 0,
    last_motion_time := -6000000000 }

/-- The state `idleState` with two frames waiting in the queue. -/
def idleStateQueued : ProcessState Int Int :=
  { idleState with frame_queue := [600, 600] }

/-- Three frames equal to the last moving frame `600`, analysed 1 s, 4.999 s and 5 s after
time `0`. -/
def quietShots : List (Shot Int) :=
  [⟨600, 1000000000, false⟩, ⟨600, 4999000000, false⟩, ⟨600, 5000000000, false⟩]

/-- Scenario A as a run of the whole loop: three identical frames are captured and then
analysed 30 ms, 60 ms and 90 ms after the loop was entered at time `0`; the running flag
is cleared afterwards and the loop observes it on its next pass. -/
def scenarioA : List (ProcessEvent Int) :=
  [.captured 7, .captured 7, .captured 7,
    .iterate 30000000 true 0, .iterate 60000000 true 0, .iterate 90000000 true 0,
    .halt, .iterate 120000000 true 0]

/-- A run of the loop from `idleStateQueued`: the first pass analyses the moving frame
`600` at time `0`, then the running flag is cleared and the next pass observes it. -/
def stoppedWhileRecording : List (ProcessEvent Int) :=
  [.iterate 0 true 0, .halt, .iterate 40000000 true 0]

/-- A run of the loop from `idleStateQueued` whose first pass analyses the moving frame
`600` at time `0` and then reads the quit key. -/
def quitWhileRecording : List (ProcessEvent Int) :=
  [.iterate 0 true 113]

/-- The state in which both runs above return. -/
def returnedState : ProcessState Int Int :=
  { is_running := false, frame_queue := [600], writer := ⟨false, [600], 1, 1⟩,
    last_gray := some 600, last_motion_time := 0 }

/-! ### Facts about the queue -/

theorem capturePush_eq_drop {α : Type} (q : List α) (f : α) (hq : q.length ≤ 6) :
    capturePush q f = (q ++ [f]).drop ((q ++ [f]).length - 6) := by
  unfold capturePush
  by_cases h : q.length > 5
  · have h6 : q.length = 6 := by omega
    rw [if_pos h]
    have : (q ++ [f]).length - 6 = 1 := by simp [h6]
    rw [this, List.drop_one]
    cases q with
    | nil => simp at h6
    | cons a t => simp
  · rw [if_neg h]
    have : (q ++ [f]).length - 6 = 0 := by simp; omega
    rw [this, List.drop_zero]

theorem capturePush_length_le {α : Type} (q : List α) (f : α) (hq : q.length ≤ 6) :
    (capturePush q f).length ≤ 6 := by
  unfold capturePush
  split <;> simp <;> omega

theorem pushAll_snoc {α : Type} (q fs : List α) (f : α) :
    pushAll q (fs ++ [f]) = capturePush (pushAll q fs) f := by
  simp [pushAll, List.foldl_append]

theorem pushAll_length_le {α : Type} (fs : List α) : (pushAll [] fs).length ≤ 6 := by
  induction fs using List.reverseRecOn with
  | nil => simp [pushAll]
  | append_singleton fs f ih =>
    rw [pushAll_snoc]
    exact capturePush_length_le _ _ ih

theorem pushAll_eq_drop {α : Type} (fs : List α) :
    pushAll [] fs = fs.drop (fs.length - 6) := by
  induction fs using List.reverseRecOn with
  | nil => simp [pushAll]
  | append_singleton fs f ih =>
    rw [pushAll_snoc, capturePush_eq_drop _ _ (pushAll_length_le fs), ih]
    by_cases h : fs.length ≤ 6
    · have h0 : fs.length - 6 = 0 := by omega
      simp [h0]
    · have h1 : (List.drop (fs.length - 6) fs).length = 6 := by simp; omega
      have h2 : (List.drop (fs.length - 6) fs ++ [f]).length - 6 = 1 := by simp [h1]
      have h3 : (fs ++ [f]).length - 6 = (fs.length - 6) + 1 := by simp; omega
      rw [h2, h3, List.drop_append_of_le_length (by omega),
        List.drop_append_of_le_length (by omega), ← List.drop_drop]

theorem fetch_cons {α : Type} (f : α) (rest : List α) : fetch (f :: rest) = (some f, rest) := rfl

theorem capturePush_sublist {α : Type} (q : List α) (f : α) :
    ∃ kept : List α, capturePush q f = kept ++ [f] ∧ kept.Sublist q := by
  unfold capturePush
  split
  · exact ⟨q.tail, rfl, List.tail_sublist q⟩
  · exact ⟨q, rfl, List.Sublist.refl q⟩

theorem step_sublist {α : Type} (r : QueueRun α) (op : QueueOp α) (later : List α) :
    ((r.step op).popped ++ (r.step op).frame_queue ++ later).Sublist
      (r.popped ++ r.frame_queue ++ (pushedFrames [op] ++ later)) := by
  cases op with
  | push f =>
    obtain ⟨kept, hk, hsub⟩ := capturePush_sublist r.frame_queue f
    simp only [QueueRun.step, pushedFrames, hk]
    have h1 : (r.popped ++ kept).Sublist (r.popped ++ r.frame_queue) :=
      (List.Sublist.refl r.popped).append hsub
    have h2 := h1.append (List.Sublist.refl (f :: later))
    simpa [List.append_assoc] using h2
  | pop =>
    cases hq : r.frame_queue with
    | nil => simp [QueueRun.step, pushedFrames, hq, fetch]
    | cons a rest => simp [QueueRun.step, pushedFrames, hq, fetch]

theorem pushedFrames_cons {α : Type} (op : QueueOp α) (ops : List (QueueOp α)) :
    pushedFrames (op :: ops) = pushedFrames [op] ++ pushedFrames ops := by
  cases op <;> simp [pushedFrames]

theorem foldl_step_sublist {α : Type} (ops : List (QueueOp α)) (r : QueueRun α) :
    ((ops.foldl QueueRun.step r).popped ++ (ops.foldl QueueRun.step r).frame_queue).Sublist
      (r.popped ++ r.frame_queue ++ pushedFrames ops) := by
  induction ops generalizing r with
  | nil => simp [pushedFrames]
  | cons op ops ih =>
    rw [List.foldl_cons, pushedFrames_cons]
    exact (ih (r.step op)).trans (step_sublist r op (pushedFrames ops))

/-! ### Facts about the recording logic -/

theorem elapsed_lt_iff (t l : Int) :
    elapsed_ms t l < record_buffer_ms ↔ t - l < 5000000000 := by
  unfold elapsed_ms record_buffer_ms ns_per_ms
  by_cases h : 0 ≤ t - l
  · rw [Int.tdiv_eq_ediv h (by decide)]; omega
  · have h1 : 0 ≤ -(t - l) := by omega
    have h2 := Int.tdiv_nonneg h1 (show (0 : Int) ≤ 1000000 by decide)
    rw [Int.neg_tdiv] at h2
    omega

theorem analyseFrame_baseline {α γ : Type} (V : Vision α γ) (s : ProcessState α γ) (f : α)
    (t : Int) (ok : Bool) (h : s.last_gray = none) :
    analyseFrame V s f t ok = ({ s with last_gray := some (V.smooth f) }, false) := by
  simp [analyseFrame, h]

theorem analyseFrame_compared {α γ : Type} (V : Vision α γ) (s : ProcessState α γ) (f : α)
    (t : Int) (ok : Bool) (g : γ) (h : s.last_gray = some g) :
    analyseFrame V s f t ok =
      ({ recordingLogic s f (V.motion_score g (V.smooth f)) t ok with
          last_gray := some (V.smooth f) }, true) := by
  simp [analyseFrame, h]

theorem recordingLogic_quiet {α γ : Type} (s : ProcessState α γ) (f : α) (score t : Int)
    (ok : Bool) (hs : score ≤ 500) :
    (recordingLogic s f score t ok).last_motion_time = s.last_motion_time ∧
      (t - s.last_motion_time < 5000000000 → s.writer.isOpened = true →
        (recordingLogic s f score t ok).writer.isOpened = true ∧
        (recordingLogic s f score t ok).writer.recorded = s.writer.recorded ++ [f] ∧
        (recordingLogic s f score t ok).writer.open_calls = s.writer.open_calls) ∧
      (5000000000 ≤ t - s.last_motion_time →
        (recordingLogic s f score t ok).writer.isOpened = false ∧
        (recordingLogic s f score t ok).writer.recorded = s.writer.recorded ∧
        (recordingLogic s f score t ok).writer.open_calls = s.writer.open_calls ∧
        (s.writer.isOpened = false → (recordingLogic s f score t ok).writer = s.writer)) := by
  have hns : ¬ score > 500 := by omega
  have hiff := elapsed_lt_iff t s.last_motion_time
  refine ⟨?_, ?_, ?_⟩
  · unfold recordingLogic
    simp only [if_neg hns]
    split <;> rfl
  · intro hlt hopen
    have he : elapsed_ms t s.last_motion_time < record_buffer_ms := hiff.mpr hlt
    unfold recordingLogic
    simp only [if_neg hns, if_pos he]
    simp [VideoWriter.isOpened, VideoWriter.write] at hopen ⊢
    simp [hopen]
  · intro hge
    have he : ¬ elapsed_ms t s.last_motion_time < record_buffer_ms := by
      rw [hiff]; omega
    unfold recordingLogic
    simp only [if_neg hns, if_neg he]
    cases ho : s.writer.isOpened <;> simp [VideoWriter.isOpened, VideoWriter.release] at ho ⊢
    · exact ho

theorem recordingLogic_motion {α γ : Type} (s : ProcessState α γ) (f : α) (score t : Int)
    (ok : Bool) (hs : 500 < score) (hopen : s.writer.isOpened = true ∨ ok = true) :
    (recordingLogic s f score t ok).last_motion_time = t ∧
      (recordingLogic s f score t ok).writer.isOpened = true ∧
      (recordingLogic s f score t ok).writer.recorded = s.writer.recorded ++ [f] := by
  have hms : score > 500 := hs
  have he : elapsed_ms t t < record_buffer_ms := by
    rw [elapsed_lt_iff]; omega
  unfold recordingLogic
  simp only [if_pos hms, if_pos he]
  cases ho : s.writer.isOpened
  · have hok : ok = true := by
      rcases hopen with h | h
      · rw [ho] at h; cases h
      · exact h
    simp [VideoWriter.isOpened, VideoWriter.write, VideoWriter.openFile, hok]
  · simp [VideoWriter.isOpened, VideoWriter.write] at ho ⊢
    simp [ho]

theorem analyseFrame_eligible_closed {α γ : Type} (V : Vision α γ) (s : ProcessState α γ)
    (x : Shot α) (he : eligible V s x = true) (hclosed : s.writer.isOpened = false) :
    (analyseFrame V s x.frame x.current_time x.open_ok).1.writer =
      (s.writer.openFile x.open_ok).write x.frame := by
  cases hg : s.last_gray with
  | none => simp [eligible, hg] at he
  | some g =>
    simp only [eligible, hg, decide_eq_true_eq] at he
    rw [analyseFrame_compared V s x.frame x.current_time x.open_ok g hg]
    simp only [recordingLogic, if_pos he, hclosed]
    rfl

theorem analyseFrame_not_eligible_closed {α γ : Type} (V : Vision α γ)
    (s : ProcessState α γ) (x : Shot α) (he : eligible V s x = false)
    (hclosed : s.writer.isOpened = false) :
    (analyseFrame V s x.frame x.current_time x.open_ok).1.writer = s.writer := by
  cases hg : s.last_gray with
  | none => rw [analyseFrame_baseline V s _ _ _ hg]
  | some g =>
    simp only [eligible, hg, decide_eq_false_iff_not] at he
    rw [analyseFrame_compared V s x.frame x.current_time x.open_ok g hg]
    simp only [recordingLogic, if_neg he, hclosed]
    rfl

theorem analyseAll_none_eligible {α γ : Type} (V : Vision α γ) (mids : List (Shot α)) :
    ∀ s : ProcessState α γ, s.writer.isOpened = false → noneEligible V s mids = true →
      (analyseAll V s mids).writer = s.writer := by
  induction mids with
  | nil => intro s _ _; rfl
  | cons x xs ih =>
    intro s hclosed hne
    simp only [noneEligible, Bool.and_eq_true, Bool.not_eq_true'] at hne
    have hw := analyseFrame_not_eligible_closed V s x hne.1 hclosed
    have := ih (analyseFrame V s x.frame x.current_time x.open_ok).1 (by rw [hw]; exact hclosed)
      hne.2
    simp only [analyseAll, List.foldl_cons] at this ⊢
    rw [this, hw]

theorem analyseFrame_open_calls_of_open {α γ : Type} (V : Vision α γ) (s : ProcessState α γ)
    (f : α) (t : Int) (ok : Bool) (hopen : s.writer.isOpened = true) :
    (analyseFrame V s f t ok).1.writer.open_calls = s.writer.open_calls := by
  cases hg : s.last_gray with
  | none => rw [analyseFrame_baseline V s _ _ _ hg]
  | some g =>
    rw [analyseFrame_compared V s f t ok g hg]
    simp only [recordingLogic, hopen]
    split <;> split <;> simp [VideoWriter.write, VideoWriter.release]

theorem processIteration_cons {α γ : Type} (V : Vision α γ) (s : ProcessState α γ)
    (frame : α) (rest : List α) (t : Int) (ok : Bool) (key : Int)
    (hq : s.frame_queue = frame :: rest) :
    processIteration V s t ok key =
      match analyseFrame V { s with frame_queue := rest } frame t ok with
      | (s1, false) => (s1, false)
      | (s1, true) => if key = 113 then ({ s1 with is_running := false }, true) else (s1, false) := by
  simp [processIteration, hq, fetch]

theorem processIteration_exit {α γ : Type} (V : Vision α γ) (s : ProcessState α γ)
    (t : Int) (ok : Bool) (key : Int) (h : (processIteration V s t ok key).2 = true) :
    key = 113 := by
  unfold processIteration at h
  split at h
  · simp at h
  · split at h
    · simp at h
    · by_cases hk : key = 113
      · exact hk
      · simp [hk] at h

theorem cleanupOnExit_closed {α γ : Type} (s : ProcessState α γ) :
    (cleanupOnExit s).writer.isOpened = false := by
  unfold cleanupOnExit
  cases h : s.writer.isOpened <;> simp [VideoWriter.isOpened, VideoWriter.release] at h ⊢
  exact h

theorem processLoopFrom_closed {α γ : Type} (V : Vision α γ) (evs : List (ProcessEvent α)) :
    ∀ s s1 : ProcessState α γ, processLoopFrom V s evs = some s1 →
      s1.writer.isOpened = false := by
  induction evs with
  | nil => intro s s1 h; simp [processLoopFrom] at h
  | cons ev evs ih =>
    intro s s1 h
    cases ev with
    | captured frame => exact ih _ _ (by simpa [processLoopFrom] using h)
    | halt => exact ih _ _ (by simpa [processLoopFrom] using h)
    | iterate t ok key =>
      unfold processLoopFrom at h
      split at h
      · split at h
        · cases h; exact cleanupOnExit_closed _
        · exact ih _ _ h
      · cases h; exact cleanupOnExit_closed _

theorem processLoopFrom_stopped {α γ : Type} (V : Vision α γ) (evs : List (ProcessEvent α))
    (t : Int) (ok : Bool) (key : Int) :
    ∀ s : ProcessState α γ, s.is_running = false →
      (processLoopFrom V s (evs ++ [ProcessEvent.iterate t ok key])).isSome = true := by
  induction evs with
  | nil => intro s hs; simp [processLoopFrom, hs]
  | cons ev evs ih =>
    intro s hs
    cases ev with
    | captured frame =>
      simp only [List.cons_append, processLoopFrom]
      exact ih _ hs
    | halt =>
      simp only [List.cons_append, processLoopFrom]
      exact ih _ rfl
    | iterate t1 ok1 key1 => simp [processLoopFrom, hs]

theorem processLoopFrom_returns {α γ : Type} (V : Vision α γ) (evs : List (ProcessEvent α))
    (later : List (ProcessEvent α)) (t : Int) (ok : Bool) (key : Int) :
    ∀ s : ProcessState α γ,
      (processLoopFrom V s
        (evs ++ ProcessEvent.halt :: (later ++ [ProcessEvent.iterate t ok key]))).isSome = true := by
  induction evs with
  | nil => intro s; simpa [processLoopFrom] using processLoopFrom_stopped V later t ok key _ rfl
  | cons ev evs ih =>
    intro s
    cases ev with
    | captured frame =>
      simp only [List.cons_append, processLoopFrom]
      exact ih _
    | halt =>
      simp only [List.cons_append, processLoopFrom]
      exact ih _
    | iterate t1 ok1 key1 =>
      simp only [List.cons_append, processLoopFrom]
      split
      · split
        · rfl
        · exact ih _
      · rfl

theorem buffer_window_ns : record_buffer_ms * ns_per_ms = 5000000000 := by
  decide

theorem quiet_step {α γ : Type} (V : Vision α γ) (s : ProcessState α γ) (g : γ)
    (x : Shot α) (t0 tprev : Int)
    (hg : s.last_gray = some g) (hl : s.last_motion_time = t0)
    (hw : tprev - t0 < 5000000000 → s.writer.isOpened = true)
    (hle : tprev ≤ x.current_time)
    (hq : V.motion_score g (V.smooth x.frame) ≤ 500) :
    (analyseFrame V s x.frame x.current_time x.open_ok).1.last_gray = some (V.smooth x.frame) ∧
      (analyseFrame V s x.frame x.current_time x.open_ok).1.last_motion_time = t0 ∧
      (x.current_time - t0 < 5000000000 →
        (analyseFrame V s x.frame x.current_time x.open_ok).1.writer.isOpened = true ∧
        (analyseFrame V s x.frame x.current_time x.open_ok).1.writer.recorded =
          s.writer.recorded ++ [x.frame]) ∧
      (5000000000 ≤ x.current_time - t0 →
        (analyseFrame V s x.frame x.current_time x.open_ok).1.writer.isOpened = false ∧
        (analyseFrame V s x.frame x.current_time x.open_ok).1.writer.recorded =
          s.writer.recorded) := by
  obtain ⟨h1, h2, h3⟩ := recordingLogic_quiet s x.frame _ x.current_time x.open_ok hq
  rw [analyseFrame_compared V s x.frame x.current_time x.open_ok g hg]
  subst hl
  refine ⟨rfl, h1, ?_, ?_⟩
  · intro hlt
    have := h2 hlt (hw (by omega))
    exact ⟨this.1, this.2.1⟩
  · intro hge
    have := h3 hge
    exact ⟨this.1, this.2.1⟩

theorem hysteresis_aux {α γ : Type} (V : Vision α γ) (t0 : Int) (x : Shot α)
    (pre : List (Shot α)) :
    ∀ (s : ProcessState α γ) (g : γ) (tprev : Int),
      s.last_gray = some g → s.last_motion_time = t0 →
      (tprev - t0 < 5000000000 → s.writer.isOpened = true) →
      List.Chain (· ≤ ·) tprev ((pre ++ [x]).map Shot.current_time) →
      noMotion V (some g) (pre ++ [x]) = true →
      (x.current_time - t0 < 5000000000 →
        (analyseFrame V (analyseAll V s pre) x.frame x.current_time x.open_ok).1.writer.isOpened
            = true ∧
        (analyseFrame V (analyseAll V s pre) x.frame x.current_time x.open_ok).1.writer.recorded
            = (analyseAll V s pre).writer.recorded ++ [x.frame]) ∧
      (5000000000 ≤ x.current_time - t0 →
        (analyseFrame V (analyseAll V s pre) x.frame x.current_time x.open_ok).1.writer.isOpened
            = false ∧
        (analyseFrame V (analyseAll V s pre) x.frame x.current_time x.open_ok).1.writer.recorded
            = (analyseAll V s pre).writer.recorded) := by
  induction pre with
  | nil =>
    intro s g tprev hg hl hw hchain hquiet
    simp only [List.nil_append, List.map_cons, List.map_nil, List.chain_cons] at hchain
    simp only [List.nil_append, noMotion, Bool.and_true, decide_eq_true_eq] at hquiet
    have := quiet_step V s g x t0 tprev hg hl hw hchain.1 hquiet
    exact ⟨this.2.2.1, this.2.2.2⟩
  | cons p ps ih =>
    intro s g tprev hg hl hw hchain hquiet
    simp only [List.cons_append, List.map_cons, List.chain_cons] at hchain
    simp only [List.cons_append, noMotion, Bool.and_eq_true, decide_eq_true_eq] at hquiet
    have hp := quiet_step V s g p t0 tprev hg hl hw hchain.1 hquiet.1
    have := ih (analyseFrame V s p.frame p.current_time p.open_ok).1 (V.smooth p.frame)
      p.current_time hp.1 hp.2.1 (fun h => (hp.2.2.1 h).1) hchain.2 hquiet.2
    simpa only [analyseAll, List.foldl_cons] using this

theorem idle_step {α γ : Type} (V : Vision α γ) (s : ProcessState α γ) (x : Shot α)
    (hclosed : s.writer.isOpened = false)
    (hidle : 5000000000 ≤ x.current_time - s.last_motion_time)
    (hquiet : ∀ g, s.last_gray = some g → V.motion_score g (V.smooth x.frame) ≤ 500) :
    (analyseFrame V s x.frame x.current_time x.open_ok).1.writer = s.writer ∧
      (analyseFrame V s x.frame x.current_time x.open_ok).1.last_motion_time
        = s.last_motion_time ∧
      (analyseFrame V s x.frame x.current_time x.open_ok).1.last_gray
        = some (V.smooth x.frame) := by
  cases hg : s.last_gray with
  | none =>
    rw [analyseFrame_baseline V s _ _ _ hg]
    exact ⟨rfl, rfl, rfl⟩
  | some g =>
    obtain ⟨h1, _, h3⟩ :=
      recordingLogic_quiet s x.frame _ x.current_time x.open_ok (hquiet g hg)
    rw [analyseFrame_compared V s x.frame x.current_time x.open_ok g hg]
    exact ⟨(h3 hidle).2.2.2 hclosed, h1, rfl⟩

theorem noMotion_cons {α γ : Type} (V : Vision α γ) (last : Option γ) (x : Shot α)
    (xs : List (Shot α)) (h : noMotion V last (x :: xs) = true) :
    (∀ g, last = some g → V.motion_score g (V.smooth x.frame) ≤ 500) ∧
      noMotion V (some (V.smooth x.frame)) xs = true := by
  cases last with
  | none => exact ⟨fun g hg => (by cases hg), (by simpa [noMotion] using h)⟩
  | some g0 =>
    simp only [noMotion, Bool.and_eq_true, decide_eq_true_eq] at h
    exact ⟨fun g hg => (by cases hg; exact h.1), h.2⟩

theorem idle_run {α γ : Type} (V : Vision α γ) (shots : List (Shot α)) :
    ∀ s : ProcessState α γ, s.writer.isOpened = false →
      (∀ x ∈ shots, 5000000000 ≤ x.current_time - s.last_motion_time) →
      noMotion V s.last_gray shots = true →
      (analyseAll V s shots).writer = s.writer ∧
        (analyseAll V s shots).last_motion_time = s.last_motion_time := by
  induction shots with
  | nil => intro s _ _ _; exact ⟨rfl, rfl⟩
  | cons x xs ih =>
    intro s hclosed htimes hquiet
    obtain ⟨hq1, hq2⟩ := noMotion_cons V s.last_gray x xs hquiet
    obtain ⟨hw, hl, hgray⟩ := idle_step V s x hclosed (htimes x (List.mem_cons_self x xs)) hq1
    have := ih (analyseFrame V s x.frame x.current_time x.open_ok).1
      (by rw [hw]; exact hclosed)
      (fun y hy => by rw [hl]; exact htimes y (List.mem_cons_of_mem x hy))
      (by rw [hgray]; exact hq2)
    simp only [analyseAll, List.foldl_cons] at this ⊢
    exact ⟨this.1.trans hw, this.2.trans hl⟩

theorem processIteration_fields {α γ : Type} (V : Vision α γ) (s : ProcessState α γ)
    (frame : α) (rest : List α) (t : Int) (ok : Bool) (key : Int)
    (hq : s.frame_queue = frame :: rest) :
    (processIteration V s t ok key).1.writer = (analyseFrame V s frame t ok).1.writer ∧
      (processIteration V s t ok key).1.last_motion_time =
        (analyseFrame V s frame t ok).1.last_motion_time ∧
      (processIteration V s t ok key).1.last_gray = (analyseFrame V s frame t ok).1.last_gray ∧
      (key ≠ 113 → (processIteration V s t ok key).2 = false) := by
  obtain ⟨⟨run, q, w⟩, lg, lmt⟩ := s
  simp only at hq
  subst hq
  cases lg with
  | none => simp [processIteration, fetch, analyseFrame]
  | some g =>
    by_cases hk : key = 113
    · simp only [processIteration, fetch, analyseFrame, recordingLogic, if_pos hk]
      refine ⟨?_, ?_, ?_, ?_⟩ <;>
        first | trivial | rfl | (intro h; exact absurd hk h) | (split <;> split <;> rfl)
    · simp only [processIteration, fetch, analyseFrame, recordingLogic, if_neg hk]
      refine ⟨?_, ?_, ?_, ?_⟩ <;>
        first | trivial | rfl | (intro _; trivial) | (split <;> split <;> rfl)

/-! ## The drop-oldest queue: claims -/

/-- C1 (drop-oldest law).  After any sequence of frames has been pushed onto the empty
queue by the capture block, with no fetch in between, the queue holds exactly the last
`min k 6` of the `k` pushed frames, in push order; so it never holds more than 6 frames.
Ten pushes `1, ..., 10` leave `5, ..., 10`. -/
theorem drop_oldest_law {α : Type} (frames : List α) :
    pushAll [] frames = frames.drop (frames.length - min frames.length 6) ∧
      (pushAll [] frames).length = min frames.length 6 ∧
      (pushAll [] frames).length ≤ 6 ∧
      pushAll [] [1, 2, 3, 4, 5, 6, 7, 8, 9, 10] = [5, 6, 7, 8, 9, 10] := by
  have hdrop : frames.length - min frames.length 6 = frames.length - 6 := by omega
  refine ⟨?_, ?_, pushAll_length_le frames, by decide⟩
  · rw [hdrop]; exact pushAll_eq_drop frames
  · rw [pushAll_eq_drop, List.length_drop]; omega

/-- C2 (FIFO order).  For every interleaving of capture pushes and processing fetches that
starts from the empty queue, the frames fetched, in fetch order, form a subsequence of the
frames pushed, in push order; the same holds for the fetched frames followed by the frames
still queued. -/
theorem fifo_order {α : Type} (ops : List (QueueOp α)) :
    (runOps ops).popped.Sublist (pushedFrames ops) ∧
      ((runOps ops).popped ++ (runOps ops).frame_queue).Sublist (pushedFrames ops) := by
  have h := foldl_step_sublist ops (⟨[], []⟩ : QueueRun α)
  have h2 : ((runOps ops).popped ++ (runOps ops).frame_queue).Sublist (pushedFrames ops) := by
    simpa [runOps] using h
  exact ⟨(List.sublist_append_left _ _).trans h2, h2⟩

/-! ## The recording state machine: claims -/

/-- C3 (hysteresis law).  Let a frame that is compared with a baseline be analysed at time
`t0` with a motion score above 500, the writer being open already or opening successfully.
Let it be followed by frames `pre ++ [x]` analysed at non-decreasing times, none of them
classified as motion.  Then the moving frame is recorded and leaves the writer open; if `x`
is analysed less than 5000 ms after `t0` it is recorded and leaves the writer open; if `x` is
analysed 5000 ms or more after `t0` (in particular if it is the first such frame) it is not
recorded and leaves the writer closed. -/
theorem hysteresis_law {α γ : Type} (V : Vision α γ) (s : ProcessState α γ) (g : γ) (f0 : α)
    (t0 : Int) (ok0 : Bool) (pre : List (Shot α)) (x : Shot α)
    (hbase : s.last_gray = some g)
    (hmotion : 500 < V.motion_score g (V.smooth f0))
    (hopen : s.writer.isOpened = true ∨ ok0 = true)
    (hquiet : noMotion V (some (V.smooth f0)) (pre ++ [x]) = true)
    (htimes : List.Chain (· ≤ ·) t0 ((pre ++ [x]).map Shot.current_time)) :
    ((analyseFrame V s f0 t0 ok0).1.writer.isOpened = true ∧
      (analyseFrame V s f0 t0 ok0).1.writer.recorded = s.writer.recorded ++ [f0]) ∧
    (x.current_time - t0 < record_buffer_ms * ns_per_ms →
      (analyseFrame V (analyseAll V (analyseFrame V s f0 t0 ok0).1 pre)
        x.frame x.current_time x.open_ok).1.writer.isOpened = true ∧
      (analyseFrame V (analyseAll V (analyseFrame V s f0 t0 ok0).1 pre)
        x.frame x.current_time x.open_ok).1.writer.recorded =
          (analyseAll V (analyseFrame V s f0 t0 ok0).1 pre).writer.recorded ++ [x.frame]) ∧
    (record_buffer_ms * ns_per_ms ≤ x.current_time - t0 →
      (analyseFrame V (analyseAll V (analyseFrame V s f0 t0 ok0).1 pre)
        x.frame x.current_time x.open_ok).1.writer.isOpened = false ∧
      (analyseFrame V (analyseAll V (analyseFrame V s f0 t0 ok0).1 pre)
        x.frame x.current_time x.open_ok).1.writer.recorded =
          (analyseAll V (analyseFrame V s f0 t0 ok0).1 pre).writer.recorded) := by
  obtain ⟨hl, ho, hr⟩ := recordingLogic_motion s f0 _ t0 ok0 hmotion hopen
  have hfirst := analyseFrame_compared V s f0 t0 ok0 g hbase
  rw [buffer_window_ns]
  refine ⟨?_, ?_⟩
  · rw [hfirst]; exact ⟨ho, hr⟩
  · apply hysteresis_aux V t0 x pre (analyseFrame V s f0 t0 ok0).1 (V.smooth f0) t0
    · rw [hfirst]
    · rw [hfirst]; exact hl
    · intro _; rw [hfirst]; exact ho
    · exact htimes
    · exact hquiet

/-- The hysteresis law on a concrete run: motion at time `0`, then quiet frames after 1 s,
4.999 s and 5 s.  The frame at 4.999 s is recorded and leaves the writer open; the frame
at 5 s is not recorded and leaves the writer closed. -/
theorem hysteresis_law_witness :
    ((analyseFrame distanceVision
        (analyseAll distanceVision (analyseFrame distanceVision idleState 600 0 true).1
          (quietShots.take 1)) 600 4999000000 false).1.writer.isOpened = true ∧
      (analyseFrame distanceVision
        (analyseAll distanceVision (analyseFrame distanceVision idleState 600 0 true).1
          (quietShots.take 1)) 600 4999000000 false).1.writer.recorded =
        (analyseAll distanceVision (analyseFrame distanceVision idleState 600 0 true).1
          (quietShots.take 1)).writer.recorded ++ [600]) ∧
      (analyseAll distanceVision idleState (⟨600, 0, true⟩ :: quietShots.take 2)).writer
        = ⟨true, [600, 600, 600], 1, 3⟩ ∧
      (analyseAll distanceVision idleState (⟨600, 0, true⟩ :: quietShots)).writer
        = ⟨false, [600, 600, 600], 1, 3⟩ :=
  ⟨(hysteresis_law distanceVision idleState 0 600 0 true (quietShots.take 1)
      ⟨600, 4999000000, false⟩ rfl (by decide) (Or.inr rfl) (by decide)
      (by simp [quietShots])).2.1 (by decide),
    by decide, by decide⟩

/-- C5 (the first frame only becomes the baseline).  When `last_gray` is still empty, the
iteration that fetches a frame stores its smoothed image as `last_gray` and ends there:
the result does not depend on the motion score, `last_motion_time` and the writer are
unchanged (no `open`, no `write`), and the loop is not left. -/
theorem first_frame_is_baseline {α γ : Type} (V : Vision α γ) (s : ProcessState α γ)
    (frame : α) (rest : List α) (t : Int) (ok : Bool) (key : Int)
    (hq : s.frame_queue = frame :: rest) (hbase : s.last_gray = none) :
    processIteration V s t ok key =
        ({ s with frame_queue := rest, last_gray := some (V.smooth frame) }, false) ∧
      (processIteration V s t ok key).1.last_motion_time = s.last_motion_time ∧
      (processIteration V s t ok key).1.writer = s.writer ∧
      (∀ score : γ → γ → Int,
        processIteration ⟨V.smooth, score⟩ s t ok key = processIteration V s t ok key) := by
  have h : ∀ W : Vision α γ, processIteration W s t ok key =
      ({ s with frame_queue := rest, last_gray := some (W.smooth frame) }, false) := by
    intro W
    rw [processIteration_cons W s frame rest t ok key hq,
      analyseFrame_baseline W { s with frame_queue := rest } frame t ok hbase]
  refine ⟨h V, ?_, ?_, ?_⟩
  · rw [h V]
  · rw [h V]
  · intro score
    rw [h V, h ⟨V.smooth, score⟩]

/-- The first frame `600` fetched with no baseline, at a time that would otherwise be
recording-eligible, leaves the unused closed writer and `last_motion_time` as they were. -/
theorem first_frame_is_baseline_witness :
    (processIteration distanceVision { idleStateQueued with last_gray := none } 0 true 0).1.writer
        = freshWriter Int ∧
      (processIteration distanceVision { idleStateQueued with last_gray := none } 0 true
        0).1.last_motion_time = -6000000000 :=
  ⟨(first_frame_is_baseline distanceVision { idleStateQueued with last_gray := none } 600 [600]
      0 true 0 rfl rfl).2.2.1,
    (first_frame_is_baseline distanceVision { idleStateQueued with last_gray := none } 600 [600]
      0 true 0 rfl rfl).2.1⟩

/-- C6 (idempotence of the idle state).  In a state whose writer is closed and in which at
time `t_ref` at least 5000 ms have passed since `last_motion_time`, analysing any number of
frames at times not before `t_ref`, none of them classified as motion, leaves the writer
exactly as it was (closed, nothing recorded, no `open` or `write` call) and leaves
`last_motion_time` unchanged. -/
theorem idle_idempotent {α γ : Type} (V : Vision α γ) (s : ProcessState α γ) (t_ref : Int)
    (shots : List (Shot α))
    (hclosed : s.writer.isOpened = false)
    (hidle : record_buffer_ms * ns_per_ms ≤ t_ref - s.last_motion_time)
    (hlater : ∀ x ∈ shots, t_ref ≤ x.current_time)
    (hquiet : noMotion V s.last_gray shots = true) :
    (analyseAll V s shots).writer = s.writer ∧
      (analyseAll V s shots).writer.isOpened = false ∧
      (analyseAll V s shots).writer.recorded = s.writer.recorded ∧
      (analyseAll V s shots).last_motion_time = s.last_motion_time := by
  rw [buffer_window_ns] at hidle
  have h := idle_run V shots s hclosed
    (fun x hx => by have := hlater x hx; omega) hquiet
  refine ⟨h.1, ?_, ?_, h.2⟩
  · rw [h.1]; exact hclosed
  · rw [h.1]

/-- Three motionless frames (scores 0, 500 and 0) analysed 6 s or more after the last motion
leave the closed writer untouched. -/
theorem idle_idempotent_witness :
    (analyseAll distanceVision idleState
        [⟨0, 0, true⟩, ⟨500, 1000000000, true⟩, ⟨500, 2000000000, true⟩]).writer
      = freshWriter Int :=
  (idle_idempotent distanceVision idleState 0
    [⟨0, 0, true⟩, ⟨500, 1000000000, true⟩, ⟨500, 2000000000, true⟩]
    rfl (by decide) (by decide) (by decide)).1

/-- C10 (strict motion threshold).  A fetched frame that is compared with a baseline sets
`last_motion_time` to the current time when its motion score is greater than 500 and leaves
it unchanged otherwise; in particular a score of exactly 500 leaves it unchanged. -/
theorem motion_threshold_strict {α γ : Type} (V : Vision α γ) (s : ProcessState α γ) (g : γ)
    (frame : α) (rest : List α) (t : Int) (ok : Bool) (key : Int)
    (hq : s.frame_queue = frame :: rest) (hg : s.last_gray = some g) :
    (processIteration V s t ok key).1.last_motion_time =
        (if V.motion_score g (V.smooth frame) > 500 then t else s.last_motion_time) ∧
      (V.motion_score g (V.smooth frame) = 500 →
        (processIteration V s t ok key).1.last_motion_time = s.last_motion_time) := by
  have h : (processIteration V s t ok key).1.last_motion_time =
      (if V.motion_score g (V.smooth frame) > 500 then t else s.last_motion_time) := by
    rw [(processIteration_fields V s frame rest t ok key hq).2.1,
      analyseFrame_compared V s frame t ok g hg]
    simp only [recordingLogic]
    split <;> split <;> rfl
  refine ⟨h, ?_⟩
  intro h500
  rw [h, h500]
  rfl

/-- A frame with score exactly 500 leaves `last_motion_time` at six seconds before time `0`,
whereas a frame with score 501 sets it to the current time `7`. -/
theorem motion_threshold_strict_witness :
    (processIteration distanceVision { idleState with frame_queue := [500] } 7 true
        0).1.last_motion_time = -6000000000 ∧
      (processIteration distanceVision { idleState with frame_queue := [501] } 7 true
        0).1.last_motion_time = 7 :=
  ⟨(motion_threshold_strict distanceVision { idleState with frame_queue := [500] } 0 500 [] 7
      true 0 rfl rfl).2 (by decide),
    (motion_threshold_strict distanceVision { idleState with frame_queue := [501] } 0 501 [] 7
      true 0 rfl rfl).1⟩

/-- C8 (the writer is released on return).  Whenever `processLoop` returns, whether because
the running flag was observed cleared or because the quit key was read, the writer is not
open in the state it returns with.  The loop does return: once the running flag has been
cleared, the next pass of the loop returns. -/
theorem writer_closed_on_return {α γ : Type} (V : Vision α γ) (s : ProcessState α γ)
    (evs : List (ProcessEvent α)) :
    (∀ s1 : ProcessState α γ, processLoopFrom V s evs = some s1 →
        s1.writer.isOpened = false) ∧
      (∀ (sys : SentinelSystem α) (start_time : Int) (s1 : ProcessState α γ),
        processLoop V sys start_time evs = some s1 → s1.writer.isOpened = false) ∧
      (∀ (later : List (ProcessEvent α)) (t : Int) (ok : Bool) (key : Int),
        (processLoopFrom V s
          (evs ++ ProcessEvent.halt :: (later ++ [ProcessEvent.iterate t ok key]))).isSome
            = true) :=
  ⟨fun s1 h => processLoopFrom_closed V evs s s1 h,
    fun _ _ s1 h => processLoopFrom_closed V evs _ s1 h,
    fun later t ok key => processLoopFrom_returns V evs later t ok key s⟩

/-- Two runs in which the writer is open when the loop ends, one ended by the running flag
and one by the quit key: both return with the recorded frame kept and the writer closed. -/
theorem writer_closed_on_return_witness :
    (processIteration distanceVision idleStateQueued 0 true 0).1.writer.isOpened = true ∧
      processLoopFrom distanceVision idleStateQueued stoppedWhileRecording
        = some returnedState ∧
      processLoopFrom distanceVision idleStateQueued quitWhileRecording = some returnedState ∧
      returnedState.writer.isOpened = false :=
  ⟨by decide, by decide, by decide,
    (writer_closed_on_return distanceVision idleStateQueued stoppedWhileRecording).1
      returnedState (by decide)⟩

/-- C9 (a failed open is recoverable).  Let the writer be closed, let `x1` be a
recording-eligible frame whose open attempt fails, let it be followed by frames `mids` that
are not recording-eligible and then by a recording-eligible frame `x2`.  Then
* after `x1` the writer is still closed, `x1` is not recorded, and one `open` call was made;
* the loop body that analyses `x1` does not leave the loop unless the quit key is read, and
  in no state is the loop left for any reason other than the quit key;
* `x2` makes a new `open` call (the second one), after which the writer is open exactly
  when that call succeeded, and `x2` is recorded exactly in that case;
* in a state whose writer is open, analysing a frame makes no `open` call. -/
theorem open_failure_recoverable {α γ : Type} (V : Vision α γ) (s : ProcessState α γ)
    (x1 : Shot α) (mids : List (Shot α)) (x2 : Shot α)
    (hclosed : s.writer.isOpened = false)
    (he1 : eligible V s x1 = true)
    (hfail : x1.open_ok = false)
    (hmids : noneEligible V (analyseFrame V s x1.frame x1.current_time x1.open_ok).1 mids = true)
    (he2 : eligible V
      (analyseAll V (analyseFrame V s x1.frame x1.current_time x1.open_ok).1 mids) x2 = true) :
    ((analyseFrame V s x1.frame x1.current_time x1.open_ok).1.writer.isOpened = false ∧
      (analyseFrame V s x1.frame x1.current_time x1.open_ok).1.writer.recorded
        = s.writer.recorded ∧
      (analyseFrame V s x1.frame x1.current_time x1.open_ok).1.writer.open_calls
        = s.writer.open_calls + 1) ∧
    ((∀ (rest : List α) (key : Int), s.frame_queue = x1.frame :: rest → key ≠ 113 →
        (processIteration V s x1.current_time x1.open_ok key).2 = false ∧
        (processIteration V s x1.current_time x1.open_ok key).1.writer =
          (analyseFrame V s x1.frame x1.current_time x1.open_ok).1.writer) ∧
      (∀ (st : ProcessState α γ) (t : Int) (ok : Bool) (key : Int),
        (processIteration V st t ok key).2 = true → key = 113)) ∧
    ((analyseFrame V
        (analyseAll V (analyseFrame V s x1.frame x1.current_time x1.open_ok).1 mids)
        x2.frame x2.current_time x2.open_ok).1.writer.open_calls = s.writer.open_calls + 2 ∧
      (analyseFrame V
        (analyseAll V (analyseFrame V s x1.frame x1.current_time x1.open_ok).1 mids)
        x2.frame x2.current_time x2.open_ok).1.writer.isOpened = x2.open_ok ∧
      (analyseFrame V
        (analyseAll V (analyseFrame V s x1.frame x1.current_time x1.open_ok).1 mids)
        x2.frame x2.current_time x2.open_ok).1.writer.recorded =
          (if x2.open_ok then s.writer.recorded ++ [x2.frame] else s.writer.recorded)) ∧
    (∀ (st : ProcessState α γ) (f : α) (t : Int) (ok : Bool), st.writer.isOpened = true →
      (analyseFrame V st f t ok).1.writer.open_calls = st.writer.open_calls) := by
  have h1 := analyseFrame_eligible_closed V s x1 he1 hclosed
  have hclosed1 : (analyseFrame V s x1.frame x1.current_time x1.open_ok).1.writer.isOpened
      = false := by
    rw [h1, hfail]; rfl
  have hmid := analyseAll_none_eligible V mids _ hclosed1 hmids
  have h2 := analyseFrame_eligible_closed V _ x2 he2 (by rw [hmid]; exact hclosed1)
  refine ⟨⟨hclosed1, ?_, ?_⟩, ⟨?_, ?_⟩, ⟨?_, ?_, ?_⟩, ?_⟩
  · rw [h1, hfail]; simp [VideoWriter.write, VideoWriter.openFile]
  · rw [h1]; rfl
  · intro rest key hq hkey
    have := processIteration_fields V s x1.frame rest x1.current_time x1.open_ok key hq
    exact ⟨this.2.2.2 hkey, this.1⟩
  · intro st t ok key h
    exact processIteration_exit V st t ok key h
  · rw [h2, hmid, h1]; rfl
  · rw [h2]; rfl
  · rw [h2, hmid, h1, hfail]
    cases x2.open_ok <;> simp [VideoWriter.write, VideoWriter.openFile]
  · intro st f t ok hopen
    exact analyseFrame_open_calls_of_open V st f t ok hopen

/-- A moving frame at time `0` whose open attempt fails, a motionless frame six seconds
later, then a moving frame whose open attempt succeeds: the first frame is not recorded and
leaves the writer closed after one `open` call; the last frame is recorded after a second
`open` call. -/
theorem open_failure_recoverable_witness :
    (analyseFrame distanceVision idleState 600 0 false).1.writer = ⟨false, [], 1, 1⟩ ∧
      (analyseAll distanceVision idleState
        [⟨600, 0, false⟩, ⟨600, 6000000000, true⟩, ⟨0, 7000000000, true⟩]).writer
          = ⟨true, [0], 2, 2⟩ ∧
      (analyseFrame distanceVision
        (analyseAll distanceVision (analyseFrame distanceVision idleState 600 0 false).1
          [⟨600, 6000000000, true⟩]) 0 7000000000 true).1.writer.open_calls = 0 + 2 :=
  ⟨by decide, by decide,
    (open_failure_recoverable distanceVision idleState ⟨600, 0, false⟩
      [⟨600, 6000000000, true⟩] ⟨0, 7000000000, true⟩ rfl (by decide) rfl (by decide)
      (by decide)).2.2.1.1⟩

/-! ## Where the code departs from the claims -/

/-- C4 (scenario A on the code).  Three identical frames, so every motion score is 0, are
analysed 30, 60 and 90 ms after `processLoop` was entered.  Because `last_motion_time`
starts at the entry time, the second and third frame are analysed less than 5000 ms after
it: the writer is opened once and both frames are recorded. -/
theorem scenarioA_opens_writer :
    distanceVision.motion_score (distanceVision.smooth 7) (distanceVision.smooth 7) = 0 ∧
      (processLoop distanceVision (startedSystem Int) 0 scenarioA).map (fun s => s.writer)
        = some ⟨false, [7, 7], 1, 2⟩ ∧
      (analyseAll distanceVision
        { toSentinelSystem := startedSystem Int, last_gray := none, last_motion_time := 0 }
        [⟨7, 30000000, true⟩, ⟨7, 60000000, true⟩, ⟨7, 90000000, true⟩]).writer
        = ⟨true, [7, 7], 1, 2⟩ := by
  refine ⟨by decide, by decide, by decide⟩

/-- C7 (empty frame in `captureLoop`).  When `cap >> temp_frame` yields an empty frame the
loop returns at once with the system exactly as it was: nothing is pushed, and the running
flag is not cleared (after `start()` it is still `true`).  When the camera cannot be opened,
by contrast, `captureLoop` clears the flag before returning. -/
theorem empty_frame_keeps_running_flag {α : Type} (s : SentinelSystem α)
    (evs : List (CaptureEvent α)) :
    captureLoop true s (CaptureEvent.grab none :: evs) = some s ∧
      (captureLoop true (startedSystem α) [CaptureEvent.grab none]).map
        (fun s1 => s1.is_running) = some true ∧
      captureLoop true (startedSystem Int) [.grab (some 1), .grab (some 2), .grab none]
        = some ⟨true, [1, 2], freshWriter Int⟩ ∧
      (captureLoop false s evs).map (fun s1 => s1.is_running) = some false := by
  refine ⟨?_, ?_, by decide, ?_⟩
  · simp only [captureLoop, captureLoopFrom, if_true]
    split <;> rfl
  · simp [captureLoop, captureLoopFrom, startedSystem]
  · simp [captureLoop]

end Sentinel
